import Mathlib

/-!
Verification of `deploy_to_venus.py`: a shallow embedding of the deployment
script's pure logic (path filtering, archive entry construction, shell
command composition, and the orchestrator's control flow), together with
theorems settling the specification's claims about it.
-/

namespace DeployVenus

/-! ## Path model (PurePosixPath-style parsing, as used by the script) -/

/-- Splits a character list into components at `/` separators, keeping empty
components (mirrors splitting a POSIX path string on the directory
separator). -/
def splitSlash : List Char → List (List Char)
  | [] => [[]]
  | c :: cs =>
    match splitSlash cs with
    | [] => [[c]]
    | p :: ps => if c = '/' then [] :: p :: ps else (c :: p) :: ps

/-- The components of a path string, dropping empty components and `.`
components, as `pathlib.PurePosixPath(...).parts` does for relative paths
(`Path("a//b/./c/").parts = ("a","b","c")`). -/
def pathParts (s : String) : List String :=
  ((splitSlash s.data).filter (fun p => (p != []) && (p != ['.']))).map
    (fun p => String.mk p)

/-- `pathlib.PurePosixPath(s).name`: the final path component, `""` if there
is none. -/
def pathName (s : String) : String :=
  (pathParts s).getLastD ""

/-- `Path(s).name` as used on the remote target path (`remote_path.name`). -/
def posixName (s : String) : String :=
  (pathParts s).getLastD ""

/-- Whether the path string is absolute (leading `/`), as `pathlib` decides
it. -/
def isAbsSpec (s : String) : Bool :=
  s.data.head? == some '/'

/-- `str(pathlib.PurePosixPath(s).parent)`: all but the last component. -/
def posixParentStr (s : String) : String :=
  let ini := (pathParts s).dropLast
  if isAbsSpec s then "/" ++ String.intercalate "/" ini
  else if ini = [] then "." else String.intercalate "/" ini

/-- `Path(spec).resolve()` relative to a current working directory given as a
component list: absolute specs ignore the cwd, `..` components pop, and the
result is a component list.  Models `pathlib` resolution without symbolic
links, which are outside the scope of this embedding. -/
def resolveParts (cwd : List String) (spec : String) : List String :=
  let base := if isAbsSpec spec then [] else cwd
  (base ++ pathParts spec).foldl
    (fun acc p => if p = ".." then acc.dropLast else acc ++ [p]) []

/-- `Path(spec).resolve().name`: the base name of the resolved source
directory, which `build_archive` uses as the archive root name. -/
def resolvedName (cwd : List String) (spec : String) : String :=
  (resolveParts cwd spec).getLastD ""

/-! ## The filter rule set and `tar_filter` (lines 26–37, 71–77) -/

/-- `IGNORE_NAMES` from the script: path components that exclude an entry. -/
def IGNORE_NAMES : List String :=
  [".git", ".github", ".vscode", "__pycache__", ".mypy_cache",
   ".pytest_cache", ".venv", "venv", "terminals"]

/-- `IGNORE_SUFFIXES` from the script: final-name suffixes that exclude an
entry. -/
def IGNORE_SUFFIXES : List String :=
  [".pyc", ".pyo", ".pdb"]

/-- `s.endswith(suffix)` on strings. -/
def endsWithStr (s suffix : String) : Bool :=
  suffix.data.isSuffixOf s.data

/-- `tar_filter` from the script: given a tar entry name, returns `none`
(exclude) if any path component is in `IGNORE_NAMES`, or if the final name
component ends with a suffix in `IGNORE_SUFFIXES`; otherwise returns the
entry unchanged. -/
def tar_filter (name : String) : Option String :=
  if (pathParts name).any (fun part => IGNORE_NAMES.contains part) then none
  else if IGNORE_SUFFIXES.any (fun suffix => endsWithStr (pathName name) suffix) then none
  else some name

/-- Whether `tar_filter` keeps the entry. -/
def tarIncl (name : String) : Bool :=
  (tar_filter name).isSome

/-! ## Archive builder model (`build_archive`, lines 80–91)

`tar.add(source, arcname=source.name, filter=tar_filter)` recursively adds
entries; when the filter rejects an entry, that entry and its whole subtree
are skipped (CPython `tarfile.add` returns immediately when the filter
yields `None`). -/

/-- A local filesystem tree: the traversal input of `tar.add`. -/
inductive FSTree where
  | file (name : String)
  | dir (name : String) (children : List FSTree)

/-- The entry's own name. -/
def FSTree.name : FSTree → String
  | .file n => n
  | .dir n _ => n

mutual

/-- The archive entry names produced by `tar.add(t, arcname=arc,
filter=tar_filter)`: the entry itself if the filter keeps it, followed (for
directories) by the recursively added children; a filtered entry contributes
nothing, subtree included. -/
def addTree : FSTree → String → List String
  | .file _, arc => if tarIncl arc then [arc] else []
  | .dir _ cs, arc => if tarIncl arc then arc :: addForest cs arc else []

/-- The entries contributed by a directory's children, each added under
`arc ++ "/" ++ child name`. -/
def addForest : List FSTree → String → List String
  | [], _ => []
  | c :: cs, arc => addTree c (arc ++ "/" ++ c.name) ++ addForest cs arc

end

/-- The full archive produced by `build_archive` for a resolved source
path: `tar.add(source, arcname=source.name, filter=tar_filter)`. -/
def buildArchiveEntries (cwd : List String) (sourceSpec : String)
    (tree : FSTree) : List String :=
  addTree tree (resolvedName cwd sourceSpec)

/-! ## Shell quoting (`shlex.quote`) and a one-word shell evaluator -/

/-- Characters `shlex.quote` treats as safe: Python's ASCII `\w` plus the
punctuation characters at-sign, percent, plus, equals, colon, comma, dot,
slash, dash. -/
def shlexSafeChar (c : Char) : Bool :=
  c.isAlpha || c.isDigit ||
    ['_', '@', '%', '+', '=', ':', ',', '.', '/', '-'].contains c

/-- The per-character expansion of `s.replace("'", "'\"'\"'")`. -/
def shlexEscapeChar (c : Char) : List Char :=
  if c = '\'' then ['\'', '"', '\'', '"', '\''] else [c]

/-- `shlex.quote`: the empty string becomes `''`; a string of safe
characters is returned unchanged; anything else is wrapped in single quotes
with embedded single quotes rewritten to `'"'"'`. -/
def shlexQuote (s : String) : String :=
  if s = "" then "''"
  else if s.data.all shlexSafeChar then s
  else String.mk ('\'' :: (s.data.flatMap shlexEscapeChar ++ ['\'']))

/-- Quoting state of a POSIX shell scanning a word. -/
inductive QState where
  | normal
  | single
  | double

/-- Characters that, unquoted, end a shell word or trigger expansion. -/
def shellMeta (c : Char) : Bool :=
  ['|', '&', ';', '<', '>', '(', ')', '$', '\\', '*', '?', '[', ']', '~',
   '#', ' ', '\t', '\n', Char.ofNat 96].contains c

/-- Evaluates one shell word: returns the literal characters the word
denotes, or `none` if the word is ill-formed (unterminated quote) or
contains an unquoted metacharacter / an expansion the shell would
interpret. -/
def evalWord : List Char → QState → Option (List Char)
  | [], .normal => some []
  | [], .single => none
  | [], .double => none
  | c :: cs, .normal =>
    if c = '\'' then evalWord cs .single
    else if c = '"' then evalWord cs .double
    else if shellMeta c then none
    else (evalWord cs .normal).map (fun l => c :: l)
  | c :: cs, .single =>
    if c = '\'' then evalWord cs .normal
    else (evalWord cs .single).map (fun l => c :: l)
  | c :: cs, .double =>
    if c = '"' then evalWord cs .normal
    else if c = '$' || c = '\\' || c = Char.ofNat 96 then none
    else (evalWord cs .double).map (fun l => c :: l)

/-! ## Remote command composition (`deploy`, lines 98–126) -/

/-- `remote_tmp = f"/tmp/{remote_path.name}-deploy.tar.gz"`. -/
def remoteTmpOf (remotePath : String) : String :=
  "/tmp/" ++ posixName remotePath ++ "-deploy.tar.gz"

/-- The `backup_cmd` fragment built when `--skip-backup` is absent
(lines 105–113). -/
def backupCmd (name : String) : String :=
  "if [ -d " ++ shlexQuote name ++ " ]; then " ++
  "TS=$(date +%Y%m%d%H%M%S); " ++
  "tar czf " ++ shlexQuote name ++ "-backup-$TS.tar.gz " ++
  shlexQuote name ++ "; " ++ "fi;"

/-- The composed `remote_cmd` string (lines 115–123). -/
def remoteCmd (base name tmp : String) (skip : Bool) : String :=
  "set -euo pipefail; " ++
  "mkdir -p " ++ shlexQuote base ++ "; " ++
  "cd " ++ shlexQuote base ++ "; " ++
  (if skip then "" else backupCmd name) ++
  "rm -rf " ++ shlexQuote name ++ "; " ++
  "tar xzf " ++ shlexQuote tmp ++ " -C " ++ shlexQuote base ++ "; " ++
  "rm -f " ++ shlexQuote tmp

/-- The `scp` destination `f"{host}:{remote_tmp}"` (line 103): raw
concatenation. -/
def scpDest (host remoteTmp : String) : String :=
  host ++ ":" ++ remoteTmp

/-- The completion message printed on line 128: chosen by the
`skip_backup` flag alone. -/
def completionMessage (skip : Bool) : String :=
  if skip then "[3/3] Done."
  else "[3/3] Done. Previous install backed up with timestamp suffix."

/-- Whether the remote side actually creates a backup: the generated
snippet guards the `tar czf` with `if [ -d <target name> ]`, so a backup is
performed exactly when the backup step was not skipped and the target
directory already existed remotely. -/
def backupPerformed (skip dirExists : Bool) : Bool :=
  !skip && dirExists

/-- Fail-fast execution model of `set -e`: of a list of sub-step results,
the steps that actually execute are those up to and including the first
failing one. -/
def execFailFast : List Bool → List Bool
  | [] => []
  | b :: bs => if b then b :: execFailFast bs else [b]

/-! ## Timestamp model (the external `date +%Y%m%d%H%M%S` invoked remotely) -/

/-- A calendar time, as the remote `date` tool sees it. -/
structure DateTime where
  year : Nat
  month : Nat
  day : Nat
  hour : Nat
  minute : Nat
  second : Nat

/-- Field bounds under which the strftime fields are faithfully rendered by
fixed-width zero padding (every real calendar time satisfies them). -/
def validTime (t : DateTime) : Prop :=
  t.year < 10000 ∧ t.month < 100 ∧ t.day < 100 ∧ t.hour < 100 ∧
    t.minute < 100 ∧ t.second < 100

instance (t : DateTime) : Decidable (validTime t) := by
  unfold validTime
  infer_instance

/-- The decimal digit character for `n` (only used with `n < 10`). -/
def digitChar (n : Nat) : Char :=
  match n with
  | 0 => '0'
  | 1 => '1'
  | 2 => '2'
  | 3 => '3'
  | 4 => '4'
  | 5 => '5'
  | 6 => '6'
  | 7 => '7'
  | 8 => '8'
  | _ => '9'

/-- Two-digit zero-padded decimal rendering, as digit values. -/
def pad2 (n : Nat) : List Nat :=
  [n / 10 % 10, n % 10]

/-- Four-digit zero-padded decimal rendering, as digit values. -/
def pad4 (n : Nat) : List Nat :=
  [n / 1000 % 10, n / 100 % 10, n / 10 % 10, n % 10]

/-- The digit values of `%Y%m%d%H%M%S` in order. -/
def tsDigits (t : DateTime) : List Nat :=
  pad4 t.year ++ pad2 t.month ++ pad2 t.day ++ pad2 t.hour ++
    pad2 t.minute ++ pad2 t.second

/-- Modelled from the external `date` tool (POSIX strftime): the output of
`date +%Y%m%d%H%M%S`, a zero-padded concatenation of year, month, day,
hour, minute, second with no separators. -/
def dateYmdHMS (t : DateTime) : String :=
  String.mk ((tsDigits t).map digitChar)

/-- The chronological key of a calendar time: later times have strictly
larger keys. -/
def tsVal (t : DateTime) : Nat :=
  ((((t.year * 100 + t.month) * 100 + t.day) * 100 + t.hour) * 100 +
    t.minute) * 100 + t.second

/-- The numeric value of a most-significant-first digit list. -/
def digitsVal : List Nat → Nat
  | [] => 0
  | d :: ds => d * 10 ^ ds.length + digitsVal ds

/-! ## Orchestrator execution model (`main` and `deploy`, lines 94–146) -/

/-- The parsed command-line configuration (`parse_args`). -/
structure Config where
  host : String
  remotePath : String
  source : String
  skipBackup : Bool

/-- The environment one invocation runs in: which external tools exist,
whether the source directory exists, and which of the fallible steps
succeed.  `remoteDirExists` is the remote target directory's prior
existence (observable only remotely). -/
structure Env where
  sshPresent : Bool
  scpPresent : Bool
  sourceIsDir : Bool
  tarWriteOk : Bool
  uploadOk : Bool
  remoteOk : Bool
  remoteDirExists : Bool
  archiveName : String

/-- How the process ends: normally, via `sys.exit(message)` (non-zero
status, message on stderr), or with an uncaught exception (also a non-zero
status). -/
inductive Outcome where
  | ok
  | exited (msg : String)
  | raised

/-- Observable result of one invocation: outcome, whether the local
temporary archive file was ever created, whether it still exists when the
process ends, the argv lists handed to the external tools, and the lines
printed. -/
structure RunResult where
  outcome : Outcome
  tmpCreated : Bool
  tmpExists : Bool
  scpCalls : List (List String)
  sshCalls : List (List String)
  printed : List String

/-- `ensure_tools` (lines 65–68): `some message` means `sys.exit(message)`. -/
def ensureToolsMsg (e : Env) : Option String :=
  let missing :=
    (if e.sshPresent then [] else ["ssh"]) ++
      (if e.scpPresent then [] else ["scp"])
  if missing.isEmpty then none
  else some ("Missing required commands: " ++ String.intercalate ", " missing)

/-- Result of the `deploy` function alone. -/
structure DeployResult where
  outcome : Outcome
  scpCalls : List (List String)
  sshCalls : List (List String)
  printed : List String

/-- `deploy(host, remote_path, archive_path, skip_backup)` (lines 98–128):
upload via `scp` (raising on failure), then one `ssh` invocation carrying
the whole composed remote command (raising on failure), then the completion
message. -/
def deployRun (host remotePath archivePath : String) (skip : Bool)
    (e : Env) : DeployResult :=
  let remoteTmp := remoteTmpOf remotePath
  let remoteBase := posixParentStr remotePath
  let p1 := "[1/3] Uploading archive to " ++ host ++ ":" ++ remoteTmp
  let scpArgv := ["scp", archivePath, scpDest host remoteTmp]
  if !e.uploadOk then ⟨.raised, [scpArgv], [], [p1]⟩
  else
    let cmd := remoteCmd remoteBase (posixName remotePath) remoteTmp skip
    let p2 := "[2/3] Deploying to " ++ host ++ ":" ++ remotePath
    let sshArgv := ["ssh", host, cmd]
    if !e.remoteOk then ⟨.raised, [scpArgv], [sshArgv], [p1, p2]⟩
    else ⟨.ok, [scpArgv], [sshArgv], [p1, p2, completionMessage skip]⟩

/-- `main` (lines 131–142): `ensure_tools`, then `build_archive` (which
exits before creating the temporary file if the source is not a directory,
and raises after creating it if writing the archive fails), then
`try: deploy(...) finally: archive_path.unlink(missing_ok=True)`.  The
`try` block starts only after `build_archive` has returned. -/
def mainRun (cfg : Config) (e : Env) : RunResult :=
  match ensureToolsMsg e with
  | some msg => ⟨.exited msg, false, false, [], [], []⟩
  | none =>
    if !e.sourceIsDir then
      ⟨.exited ("Source directory not found: " ++ cfg.source),
        false, false, [], [], []⟩
    else if !e.tarWriteOk then
      ⟨.raised, true, true, [], [], []⟩
    else
      let d := deployRun cfg.host cfg.remotePath e.archiveName
        cfg.skipBackup e
      ⟨d.outcome, true, false, d.scpCalls, d.sshCalls, d.printed⟩

/-! ## Lemmas about the archive builder -/

/-- An entry contributed by a directory's children comes from one child,
added under the extended archive path. -/
theorem mem_addForest {e : String} : ∀ {cs : List FSTree} {arc : String},
    e ∈ addForest cs arc → ∃ c ∈ cs, e ∈ addTree c (arc ++ "/" ++ c.name) := by
  intro cs
  induction cs with
  | nil => intro arc h; simp [addForest] at h
  | cons c cs ih =>
    intro arc h
    simp only [addForest, List.mem_append] at h
    rcases h with h | h
    · exact ⟨c, List.mem_cons_self c cs, h⟩
    · obtain ⟨c', hc', he⟩ := ih h
      exact ⟨c', List.mem_cons_of_mem c hc', he⟩

/-- Size-bounded form of the prefix property, for the strong induction. -/
theorem addTree_mem_aux : ∀ (n : Nat) (t : FSTree), sizeOf t ≤ n →
    ∀ (arc e : String), e ∈ addTree t arc →
      e = arc ∨ ∃ r, e = arc ++ "/" ++ r := by
  intro n
  induction n with
  | zero =>
    intro t h
    exfalso
    cases t <;> simp at h
  | succ n ih =>
    intro t h arc e he
    cases t with
    | file nm =>
      simp only [addTree] at he
      by_cases hf : tarIncl arc
      · simp [hf] at he; exact Or.inl he
      · simp [hf] at he
    | dir nm cs =>
      simp only [addTree] at he
      by_cases hf : tarIncl arc
      · simp only [hf, if_true] at he
        rcases List.mem_cons.mp he with h1 | h1
        · exact Or.inl h1
        · obtain ⟨c, hc, hec⟩ := mem_addForest h1
          have hsz : sizeOf c ≤ n := by
            have h1' : sizeOf c < sizeOf cs := List.sizeOf_lt_of_mem hc
            have h2' : sizeOf (FSTree.dir nm cs) = 1 + sizeOf nm + sizeOf cs := by
              simp
            omega
          rcases ih c hsz (arc ++ "/" ++ c.name) e hec with h2 | ⟨r, hr⟩
          · exact Or.inr ⟨c.name, h2⟩
          · refine Or.inr ⟨c.name ++ "/" ++ r, ?_⟩
            rw [hr]
            simp [String.append_assoc]
      · simp [hf] at he

/-- Every archive entry is either the root archive name itself or sits
strictly below it. -/
theorem addTree_mem {t : FSTree} {arc e : String} (h : e ∈ addTree t arc) :
    e = arc ∨ ∃ r, e = arc ++ "/" ++ r :=
  addTree_mem_aux (sizeOf t) t (Nat.le_refl _) arc e h

/-- When the filter keeps the root name, the first archive entry is the
root name itself. -/
theorem addTree_head (t : FSTree) (arc : String) (h : tarIncl arc = true) :
    (addTree t arc).head? = some arc := by
  cases t <;> simp [addTree, h]

/-- When the filter rejects the root name, the archive is empty. -/
theorem addTree_excluded (t : FSTree) (n : String) (h : tarIncl n = false) :
    addTree t n = [] := by
  cases t <;> simp [addTree, h]

/-- Each member of `IGNORE_NAMES` is rejected by the filter even as a bare
root name. -/
theorem tarIncl_of_ignore {n : String} (h : n ∈ IGNORE_NAMES) :
    tarIncl n = false := by
  simp only [IGNORE_NAMES, List.mem_cons, List.not_mem_nil, or_false] at h
  rcases h with rfl | rfl | rfl | rfl | rfl | rfl | rfl | rfl | rfl <;> decide

/-! ## Lemmas about path parsing and resolution -/

/-- String append acts componentwise on the character data. -/
theorem strData_append (s t : String) : (s ++ t).data = s.data ++ t.data := by
  cases s
  cases t
  rfl

/-- Splitting always yields at least one component. -/
theorem splitSlash_ne_nil (cs : List Char) : splitSlash cs ≠ [] := by
  induction cs with
  | nil => simp [splitSlash]
  | cons c cs ih =>
    simp only [splitSlash]
    cases h : splitSlash cs with
    | nil => simp
    | cons p ps =>
      by_cases hc : c = '/' <;> simp [hc]

/-- A trailing separator contributes exactly one trailing empty
component. -/
theorem splitSlash_append_slash (cs : List Char) :
    splitSlash (cs ++ ['/']) = splitSlash cs ++ [[]] := by
  induction cs with
  | nil => rfl
  | cons c cs ih =>
    cases h : splitSlash cs with
    | nil => exact absurd h (splitSlash_ne_nil cs)
    | cons p ps =>
      simp only [List.cons_append, splitSlash, List.append_eq]
      rw [ih, h]
      by_cases hc : c = '/' <;> simp [hc]

/-- Path components are unchanged by a trailing separator. -/
theorem pathParts_append_slash (s : String) :
    pathParts (s ++ "/") = pathParts s := by
  unfold pathParts
  rw [strData_append]
  have hslash : ("/" : String).data = ['/'] := rfl
  rw [hslash, splitSlash_append_slash]
  rw [List.filter_append]
  simp

/-- Absoluteness is unchanged by a trailing separator (for a nonempty
spec). -/
theorem isAbsSpec_append_slash {s : String} (h : s ≠ "") :
    isAbsSpec (s ++ "/") = isAbsSpec s := by
  unfold isAbsSpec
  rw [strData_append]
  have hd : s.data ≠ [] := by
    intro hnil
    apply h
    cases s with
    | mk d => simp at hnil; simp [hnil]
  cases hs : s.data with
  | nil => exact absurd hs hd
  | cons c cs => rfl

/-- Resolution is unchanged by a trailing separator (for a nonempty
spec). -/
theorem resolveParts_append_slash (cwd : List String) {s : String} (h : s ≠ "") :
    resolveParts cwd (s ++ "/") = resolveParts cwd s := by
  unfold resolveParts
  rw [pathParts_append_slash, isAbsSpec_append_slash h]

/-- The resolved base name is unchanged by a trailing separator (for a
nonempty spec). -/
theorem resolvedName_append_slash (cwd : List String) {s : String} (h : s ≠ "") :
    resolvedName cwd (s ++ "/") = resolvedName cwd s := by
  unfold resolvedName
  rw [resolveParts_append_slash cwd h]

/-! ## Claim C1 -/

/-- Claim C1: `tar_filter` excludes an entry if and only if some component
of its relative path is in the excluded-names set, or its final name
component ends with one of the excluded suffixes; every entry meeting
neither condition is included unchanged.  (`tar_filter` is a Lean function,
hence a pure predicate with no side effects.) -/
theorem tar_filter_excludes_iff (name : String) :
    (tar_filter name = none ↔
      (∃ p ∈ pathParts name, p ∈ IGNORE_NAMES) ∨
        (∃ suf ∈ IGNORE_SUFFIXES, endsWithStr (pathName name) suf = true)) ∧
    (tar_filter name = some name ↔
      ¬ ((∃ p ∈ pathParts name, p ∈ IGNORE_NAMES) ∨
        (∃ suf ∈ IGNORE_SUFFIXES, endsWithStr (pathName name) suf = true))) := by
  have key1 : ((pathParts name).any (fun part => IGNORE_NAMES.contains part) = true)
      ↔ (∃ p ∈ pathParts name, p ∈ IGNORE_NAMES) := by
    simp [List.any_eq_true]
  have key2 : (IGNORE_SUFFIXES.any (fun suffix => endsWithStr (pathName name) suffix) = true)
      ↔ (∃ suf ∈ IGNORE_SUFFIXES, endsWithStr (pathName name) suf = true) := by
    simp [List.any_eq_true]
  rw [← key1, ← key2]
  unfold tar_filter
  cases hb1 : (pathParts name).any (fun part => IGNORE_NAMES.contains part) <;>
    cases hb2 : IGNORE_SUFFIXES.any (fun suffix => endsWithStr (pathName name) suffix) <;>
    simp [hb1, hb2]

/-! ## Claim C2 -/

/-- Claim C2 counterexample: a valid source directory whose base name is
`venv` resolves to base name `venv`, yet the produced archive has no
entries at all — in particular no top-level entry equal to the base name —
refuting the claim that every valid source directory yields an archive
whose root entry is its base name. -/
theorem archive_root_counterexample :
    resolvedName ["home", "user"] "venv" = "venv" ∧
    buildArchiveEntries ["home", "user"] "venv"
      (FSTree.dir "venv" [FSTree.file "app.py"]) = [] ∧
    (buildArchiveEntries ["home", "user"] "venv"
      (FSTree.dir "venv" [FSTree.file "app.py"])).head? ≠ some "venv" := by
  refine ⟨by decide, by decide, by decide⟩

/-- Claim C2 (amended): whenever the resolved base name itself passes the
path filter, the archive's top-level entry equals the source directory's
base name; every entry lies at or below that base name (never the full
source path); and the archive is unchanged by a trailing separator on the
source spec — resolution also makes it independent of relative/absolute
form, since only the resolved final component is used. -/
theorem archive_root_amended (cwd : List String) (spec : String)
    (tree : FSTree) (hspec : spec ≠ "")
    (hincl : tarIncl (resolvedName cwd spec) = true) :
    (buildArchiveEntries cwd spec tree).head? = some (resolvedName cwd spec) ∧
    (∀ e ∈ buildArchiveEntries cwd spec tree,
      e = resolvedName cwd spec ∨ ∃ r, e = resolvedName cwd spec ++ "/" ++ r) ∧
    buildArchiveEntries cwd (spec ++ "/") tree =
      buildArchiveEntries cwd spec tree := by
  refine ⟨addTree_head tree _ hincl, fun e he => addTree_mem he, ?_⟩
  unfold buildArchiveEntries
  rw [resolvedName_append_slash cwd hspec]

/-- Witness for the amended C2 at a concrete source tree. -/
theorem archive_root_amended_witness :
    (buildArchiveEntries ["home"] "proj"
      (FSTree.dir "proj" [FSTree.file "app.py"])).head? =
        some (resolvedName ["home"] "proj") ∧
    (∀ e ∈ buildArchiveEntries ["home"] "proj"
      (FSTree.dir "proj" [FSTree.file "app.py"]),
      e = resolvedName ["home"] "proj" ∨
        ∃ r, e = resolvedName ["home"] "proj" ++ "/" ++ r) ∧
    buildArchiveEntries ["home"] ("proj" ++ "/")
      (FSTree.dir "proj" [FSTree.file "app.py"]) =
      buildArchiveEntries ["home"] "proj"
        (FSTree.dir "proj" [FSTree.file "app.py"]) :=
  archive_root_amended ["home"] "proj"
    (FSTree.dir "proj" [FSTree.file "app.py"]) (by decide) (by decide)

/-! ## Claim C10 -/

/-- Claim C10: if the source directory's resolved base name is in the
excluded-names set, the produced archive contains no entries at all; and
every archive entry's path begins with the base name, so the root and all
descendants are filtered out together. -/
theorem excluded_source_name_empty_archive (tree : FSTree)
    (cwd : List String) (spec : String)
    (h : resolvedName cwd spec ∈ IGNORE_NAMES) :
    buildArchiveEntries cwd spec tree = [] ∧
    (∀ e ∈ addTree tree (resolvedName cwd spec),
      e = resolvedName cwd spec ∨ ∃ r, e = resolvedName cwd spec ++ "/" ++ r) :=
  ⟨addTree_excluded tree _ (tarIncl_of_ignore h), fun _ he => addTree_mem he⟩

/-- Witness for C10: a source directory named `venv` with a nonempty
subtree produces an empty archive. -/
theorem excluded_source_name_empty_archive_witness :
    buildArchiveEntries ["home", "user"] "venv"
      (FSTree.dir "venv" [FSTree.file "app.py", FSTree.dir "sub" [FSTree.file "b"]]) = [] ∧
    (∀ e ∈ addTree
      (FSTree.dir "venv" [FSTree.file "app.py", FSTree.dir "sub" [FSTree.file "b"]])
      (resolvedName ["home", "user"] "venv"),
      e = resolvedName ["home", "user"] "venv" ∨
        ∃ r, e = resolvedName ["home", "user"] "venv" ++ "/" ++ r) :=
  excluded_source_name_empty_archive
    (FSTree.dir "venv" [FSTree.file "app.py", FSTree.dir "sub" [FSTree.file "b"]])
    ["home", "user"] "venv" (by decide)

/-! ## Lemmas about the timestamp rendering -/

theorem digitsVal_append (xs ys : List Nat) :
    digitsVal (xs ++ ys) = digitsVal xs * 10 ^ ys.length + digitsVal ys := by
  induction xs with
  | nil => simp [digitsVal]
  | cons x xs ih =>
    simp only [List.cons_append, digitsVal, List.append_eq, List.length_append]
    rw [ih]
    ring

theorem digitsVal_lt (xs : List Nat) (h : ∀ d ∈ xs, d < 10) :
    digitsVal xs < 10 ^ xs.length := by
  induction xs with
  | nil => simp [digitsVal]
  | cons x xs ih =>
    simp only [digitsVal, List.length_cons]
    have hx : x < 10 := h x (List.mem_cons_self x xs)
    have hxs : digitsVal xs < 10 ^ xs.length :=
      ih (fun d hd => h d (List.mem_cons_of_mem _ hd))
    calc x * 10 ^ xs.length + digitsVal xs
        < x * 10 ^ xs.length + 10 ^ xs.length := by omega
      _ = (x + 1) * 10 ^ xs.length := by ring
      _ ≤ 10 * 10 ^ xs.length := Nat.mul_le_mul_right _ (by omega)
      _ = 10 ^ (xs.length + 1) := by ring

theorem tsDigits_length (t : DateTime) : (tsDigits t).length = 14 := by
  simp [tsDigits, pad2, pad4]

theorem tsDigits_lt_ten (t : DateTime) : ∀ d ∈ tsDigits t, d < 10 := by
  simp only [tsDigits, pad2, pad4, List.mem_append, List.mem_cons,
    List.not_mem_nil, or_false]
  intro d hd
  rcases hd with h | h <;> try (rcases h with h | h)
  all_goals omega

theorem tsDigits_val (t : DateTime) (h : validTime t) :
    digitsVal (tsDigits t) = tsVal t := by
  obtain ⟨hy, hm, hd, hh, hmi, hs⟩ := h
  simp only [tsDigits, tsVal, pad2, pad4, digitsVal_append, digitsVal,
    List.length_cons, List.length_nil]
  norm_num
  omega

theorem digitChar_lt_iff : ∀ a, a < 10 → ∀ b, b < 10 →
    ((digitChar a < digitChar b) ↔ a < b) := by decide

theorem digits_map_lt : ∀ (xs ys : List Nat), xs.length = ys.length →
    (∀ d ∈ xs, d < 10) → (∀ d ∈ ys, d < 10) →
    digitsVal xs < digitsVal ys →
    List.Lex (· < ·) (xs.map digitChar) (ys.map digitChar) := by
  intro xs
  induction xs with
  | nil =>
    intro ys hlen _ _ hv
    cases ys with
    | nil => simp [digitsVal] at hv
    | cons y ys' => simp at hlen
  | cons x xs ih =>
    intro ys hlen hx hy hv
    cases ys with
    | nil => simp at hlen
    | cons y ys' =>
      have hlen' : xs.length = ys'.length := by simpa using hlen
      have hx0 : x < 10 := hx x (List.mem_cons_self x xs)
      have hy0 : y < 10 := hy y (List.mem_cons_self y ys')
      rcases Nat.lt_trichotomy x y with hxy | hxy | hxy
      · exact List.Lex.rel ((digitChar_lt_iff x hx0 y hy0).mpr hxy)
      · subst hxy
        simp only [List.map_cons]
        refine List.Lex.cons ?_
        refine ih ys' hlen' (fun d hd => hx d (List.mem_cons_of_mem _ hd))
          (fun d hd => hy d (List.mem_cons_of_mem _ hd)) ?_
        simp only [digitsVal] at hv
        rw [hlen'] at hv
        omega
      · exfalso
        have hys : digitsVal ys' < 10 ^ ys'.length :=
          digitsVal_lt ys' (fun d hd => hy d (List.mem_cons_of_mem _ hd))
        have hle : (y + 1) * 10 ^ ys'.length ≤ x * 10 ^ ys'.length :=
          Nat.mul_le_mul_right _ (by omega)
        simp only [digitsVal] at hv
        rw [hlen'] at hv
        nlinarith
      
theorem dateYmdHMS_sortable (t1 t2 : DateTime) (h1 : validTime t1)
    (h2 : validTime t2) (hlt : tsVal t1 < tsVal t2) :
    dateYmdHMS t1 < dateYmdHMS t2 := by
  rw [String.lt_iff_toList_lt]
  have e1 : (dateYmdHMS t1).toList = (tsDigits t1).map digitChar := rfl
  have e2 : (dateYmdHMS t2).toList = (tsDigits t2).map digitChar := rfl
  rw [e1, e2]
  refine digits_map_lt _ _ ?_ (tsDigits_lt_ten t1) (tsDigits_lt_ten t2) ?_
  · rw [tsDigits_length, tsDigits_length]
  · rw [tsDigits_val t1 h1, tsDigits_val t2 h2]
    exact hlt



/-! ## Lemmas about shell quoting -/
theorem shellMeta_not_safe {c : Char} (h : shellMeta c = true) :
    shlexSafeChar c = false := by
  have hmem : c ∈ ['|', '&', ';', '<', '>', '(', ')', '$', '\\', '*', '?',
      '[', ']', '~', '#', ' ', '\t', '\n', Char.ofNat 96] := by
    simpa [shellMeta] using h
  simp only [List.mem_cons, List.not_mem_nil, or_false] at hmem
  rcases hmem with rfl | rfl | rfl | rfl | rfl | rfl | rfl | rfl | rfl | rfl |
    rfl | rfl | rfl | rfl | rfl | rfl | rfl | rfl | rfl <;> decide

theorem safe_char_plain {c : Char} (h : shlexSafeChar c = true) :
    c ≠ '\'' ∧ c ≠ '"' ∧ shellMeta c = false := by
  refine ⟨?_, ?_, ?_⟩
  · rintro rfl; exact absurd h (by decide)
  · rintro rfl; exact absurd h (by decide)
  · by_contra hm
    rw [Bool.not_eq_false] at hm
    rw [shellMeta_not_safe hm] at h
    cases h

theorem evalWord_safe : ∀ (cs : List Char), cs.all shlexSafeChar = true →
    evalWord cs QState.normal = some cs := by
  intro cs
  induction cs with
  | nil => intro _; rfl
  | cons c cs ih =>
    intro h
    rw [List.all_cons, Bool.and_eq_true] at h
    obtain ⟨h1, h2, h3⟩ := safe_char_plain h.1
    simp only [evalWord, if_neg h1, if_neg h2, h3, Bool.false_eq_true,
      if_false, ih h.2]
    rfl

theorem evalWord_escaped : ∀ (cs : List Char),
    evalWord (cs.flatMap shlexEscapeChar ++ ['\'']) QState.single = some cs := by
  intro cs
  induction cs with
  | nil => rfl
  | cons c cs ih =>
    by_cases hc : c = '\''
    · subst hc
      simp only [List.flatMap_cons, shlexEscapeChar, if_pos rfl,
        List.append_assoc, List.cons_append]
      simp only [evalWord, if_pos rfl]
      norm_num
      rw [ih]
      rfl
    · simp only [List.flatMap_cons, shlexEscapeChar, if_neg hc,
        List.cons_append, List.append_assoc]
      simp only [evalWord, if_neg hc, List.nil_append]
      rw [ih]
      rfl

theorem shlexQuote_evalWord (s : String) :
    evalWord (shlexQuote s).data QState.normal = some s.data := by
  unfold shlexQuote
  by_cases he : s = ""
  · subst he
    decide
  · simp only [if_neg he]
    by_cases hsafe : s.data.all shlexSafeChar = true
    · rw [if_pos hsafe]
      exact evalWord_safe s.data hsafe
    · rw [if_neg hsafe]
      have hdata : (String.mk ('\'' :: (s.data.flatMap shlexEscapeChar ++ ['\'']))).data
          = '\'' :: (s.data.flatMap shlexEscapeChar ++ ['\'']) := rfl
      rw [hdata]
      simp only [evalWord, if_pos rfl]
      exact evalWord_escaped s.data

/-! ## Orchestrator claim proofs -/

/-- Fail-fast shell semantics: once a sub-step fails, no later sub-step of
the same invocation executes. -/
theorem execFailFast_stops (pre post : List Bool) (h : pre.all id = true) :
    execFailFast (pre ++ false :: post) = pre ++ [false] := by
  induction pre with
  | nil => rfl
  | cons b bs ih =>
    rw [List.all_cons, Bool.and_eq_true] at h
    have hb : b = true := by simpa using h.1
    subst hb
    simp only [List.cons_append, execFailFast, List.append_eq]
    rw [if_pos trivial, ih h.2]

/-- Claim C3 counterexample: when archive writing fails after the
temporary file has been created (`tarWriteOk = false`, tools present,
source valid), the invocation ends with the temporary file still existing —
`build_archive` is outside the `try`/`finally`, so the scoped cleanup never
runs on this exit path. -/
theorem tmpfile_leak_counterexample :
    ((mainRun ⟨"root@10.1.87.45", "/data/apps/dbus-serialbattery",
        "dbus-serialbattery", false⟩
      ⟨true, true, true, false, true, true, true, "/tmp/tmpx.tar.gz"⟩).tmpCreated = true) ∧
    ((mainRun ⟨"root@10.1.87.45", "/data/apps/dbus-serialbattery",
        "dbus-serialbattery", false⟩
      ⟨true, true, true, false, true, true, true, "/tmp/tmpx.tar.gz"⟩).tmpExists = true) := by
  decide

/-- Claim C3 (amended): the temporary archive file is deleted on every
exit path on which archive writing succeeded — normal completion, upload
failure, and remote-command failure — because the `try`/`finally` around
`deploy` begins right after `build_archive` returns; validation failures
create no file at all, but an archive-write failure after the temporary
file is created leaks it. -/
theorem tmp_cleanup_amended (cfg : Config) (e : Env)
    (h : e.tarWriteOk = true) :
    (mainRun cfg e).tmpExists = false := by
  unfold mainRun
  cases hm : ensureToolsMsg e with
  | some msg => rfl
  | none =>
    cases hs : e.sourceIsDir with
    | false => simp [hs]
    | true => simp [hs, h]

theorem tmp_cleanup_amended_witness :
    (mainRun ⟨"root@10.1.87.45", "/data/apps/dbus-serialbattery",
        "dbus-serialbattery", false⟩
      ⟨true, true, true, true, true, false, true, "/tmp/t.tar.gz"⟩).tmpExists = false :=
  tmp_cleanup_amended _ _ rfl

/-- Claim C4: if the source path is not a directory, the process exits
via `sys.exit` with an error message, no archive file is created, and no
`scp` or `ssh` invocation occurs. -/
theorem invalid_source_aborts (cfg : Config) (e : Env)
    (h : e.sourceIsDir = false) :
    (∃ msg, (mainRun cfg e).outcome = Outcome.exited msg) ∧
    (mainRun cfg e).tmpCreated = false ∧
    (mainRun cfg e).scpCalls = [] ∧
    (mainRun cfg e).sshCalls = [] := by
  unfold mainRun
  cases hm : ensureToolsMsg e with
  | some msg => exact ⟨⟨msg, rfl⟩, rfl, rfl, rfl⟩
  | none =>
    refine ⟨⟨"Source directory not found: " ++ cfg.source, ?_⟩, ?_, ?_, ?_⟩ <;>
      simp [h]

theorem invalid_source_aborts_witness :
    (∃ msg, (mainRun ⟨"root@10.1.87.45", "/data/apps/dbus-serialbattery",
        "missing-dir", false⟩
      ⟨true, true, false, true, true, true, false, "A"⟩).outcome = Outcome.exited msg) ∧
    (mainRun ⟨"root@10.1.87.45", "/data/apps/dbus-serialbattery",
        "missing-dir", false⟩
      ⟨true, true, false, true, true, true, false, "A"⟩).tmpCreated = false ∧
    (mainRun ⟨"root@10.1.87.45", "/data/apps/dbus-serialbattery",
        "missing-dir", false⟩
      ⟨true, true, false, true, true, true, false, "A"⟩).scpCalls = [] ∧
    (mainRun ⟨"root@10.1.87.45", "/data/apps/dbus-serialbattery",
        "missing-dir", false⟩
      ⟨true, true, false, true, true, true, false, "A"⟩).sshCalls = [] :=
  invalid_source_aborts _ _ rfl

/-- Claim C5: if `ssh` or `scp` is absent, `ensure_tools` reports the
missing-tool error and the process exits with it before the archive is
created and before any network activity. -/
theorem missing_tools_abort (cfg : Config) (e : Env)
    (h : e.sshPresent = false ∨ e.scpPresent = false) :
    (∃ msg, ensureToolsMsg e = some msg ∧
      (mainRun cfg e).outcome = Outcome.exited msg) ∧
    (mainRun cfg e).tmpCreated = false ∧
    (mainRun cfg e).scpCalls = [] ∧
    (mainRun cfg e).sshCalls = [] := by
  have hm : ∃ msg, ensureToolsMsg e = some msg := by
    cases h1 : e.sshPresent <;> cases h2 : e.scpPresent <;>
      simp [ensureToolsMsg, h1, h2] at h ⊢
  obtain ⟨msg, hm⟩ := hm
  refine ⟨⟨msg, hm, ?_⟩, ?_, ?_, ?_⟩ <;> simp [mainRun, hm]

theorem missing_tools_abort_witness :
    (∃ msg, ensureToolsMsg ⟨false, true, true, true, true, true, false, "A"⟩ = some msg ∧
      (mainRun ⟨"root@10.1.87.45", "/data/apps/dbus-serialbattery",
          "dbus-serialbattery", false⟩
        ⟨false, true, true, true, true, true, false, "A"⟩).outcome = Outcome.exited msg) ∧
    (mainRun ⟨"root@10.1.87.45", "/data/apps/dbus-serialbattery",
        "dbus-serialbattery", false⟩
      ⟨false, true, true, true, true, true, false, "A"⟩).tmpCreated = false ∧
    (mainRun ⟨"root@10.1.87.45", "/data/apps/dbus-serialbattery",
        "dbus-serialbattery", false⟩
      ⟨false, true, true, true, true, true, false, "A"⟩).scpCalls = [] ∧
    (mainRun ⟨"root@10.1.87.45", "/data/apps/dbus-serialbattery",
        "dbus-serialbattery", false⟩
      ⟨false, true, true, true, true, true, false, "A"⟩).sshCalls = [] :=
  missing_tools_abort _ _ (Or.inl rfl)


/-- Claim C6: in any run that reaches the remote phase, all remote steps
are issued as exactly one `ssh` invocation whose command string is prefixed
by `set -euo pipefail; ` (fail-fast shell semantics, under which a failing
sub-step stops all later sub-steps, per `execFailFast`), and the uploaded
archive is sent to `/tmp/<remote-target-basename>-deploy.tar.gz`. -/
theorem remote_steps_single_invocation (cfg : Config) (e : Env)
    (h1 : e.sshPresent = true) (h2 : e.scpPresent = true)
    (h3 : e.sourceIsDir = true) (h4 : e.tarWriteOk = true)
    (h5 : e.uploadOk = true) :
    (mainRun cfg e).sshCalls =
      [["ssh", cfg.host,
        remoteCmd (posixParentStr cfg.remotePath) (posixName cfg.remotePath)
          (remoteTmpOf cfg.remotePath) cfg.skipBackup]] ∧
    (mainRun cfg e).scpCalls =
      [["scp", e.archiveName,
        scpDest cfg.host (remoteTmpOf cfg.remotePath)]] ∧
    remoteTmpOf cfg.remotePath =
      "/tmp/" ++ posixName cfg.remotePath ++ "-deploy.tar.gz" ∧
    (∃ rest, remoteCmd (posixParentStr cfg.remotePath) (posixName cfg.remotePath)
        (remoteTmpOf cfg.remotePath) cfg.skipBackup =
      "set -euo pipefail; " ++ rest) ∧
    (∀ (pre post : List Bool), pre.all id = true →
      execFailFast (pre ++ false :: post) = pre ++ [false]) := by
  have hssh : (mainRun cfg e).sshCalls =
      [["ssh", cfg.host,
        remoteCmd (posixParentStr cfg.remotePath) (posixName cfg.remotePath)
          (remoteTmpOf cfg.remotePath) cfg.skipBackup]] := by
    cases hr : e.remoteOk <;>
      simp [mainRun, deployRun, ensureToolsMsg, h1, h2, h3, h4, h5, hr]
  have hscp : (mainRun cfg e).scpCalls =
      [["scp", e.archiveName, scpDest cfg.host (remoteTmpOf cfg.remotePath)]] := by
    cases hr : e.remoteOk <;>
      simp [mainRun, deployRun, ensureToolsMsg, h1, h2, h3, h4, h5, hr]
  refine ⟨hssh, hscp, rfl, ?_, execFailFast_stops⟩
  refine ⟨"mkdir -p " ++ shlexQuote (posixParentStr cfg.remotePath) ++ "; " ++
    "cd " ++ shlexQuote (posixParentStr cfg.remotePath) ++ "; " ++
    (if cfg.skipBackup then "" else backupCmd (posixName cfg.remotePath)) ++
    "rm -rf " ++ shlexQuote (posixName cfg.remotePath) ++ "; " ++
    "tar xzf " ++ shlexQuote (remoteTmpOf cfg.remotePath) ++ " -C " ++
    shlexQuote (posixParentStr cfg.remotePath) ++ "; " ++
    "rm -f " ++ shlexQuote (remoteTmpOf cfg.remotePath), ?_⟩
  simp only [remoteCmd, String.append_assoc]

theorem remote_steps_single_invocation_witness :
    (mainRun ⟨"root@10.1.87.45", "/data/apps/dbus-serialbattery",
        "dbus-serialbattery", false⟩
      ⟨true, true, true, true, true, true, true, "ARCHIVE"⟩).sshCalls =
      [["ssh", "root@10.1.87.45",
        remoteCmd (posixParentStr "/data/apps/dbus-serialbattery")
          (posixName "/data/apps/dbus-serialbattery")
          (remoteTmpOf "/data/apps/dbus-serialbattery") false]] ∧
    (mainRun ⟨"root@10.1.87.45", "/data/apps/dbus-serialbattery",
        "dbus-serialbattery", false⟩
      ⟨true, true, true, true, true, true, true, "ARCHIVE"⟩).scpCalls =
      [["scp", "ARCHIVE",
        scpDest "root@10.1.87.45" (remoteTmpOf "/data/apps/dbus-serialbattery")]] ∧
    remoteTmpOf "/data/apps/dbus-serialbattery" =
      "/tmp/" ++ posixName "/data/apps/dbus-serialbattery" ++ "-deploy.tar.gz" ∧
    (∃ rest, remoteCmd (posixParentStr "/data/apps/dbus-serialbattery")
        (posixName "/data/apps/dbus-serialbattery")
        (remoteTmpOf "/data/apps/dbus-serialbattery") false =
      "set -euo pipefail; " ++ rest) ∧
    (∀ (pre post : List Bool), pre.all id = true →
      execFailFast (pre ++ false :: post) = pre ++ [false]) :=
  remote_steps_single_invocation _ _ rfl rfl rfl rfl rfl


/-- Claim C7: without `--skip-backup` the composed remote command
contains the backup fragment — an existence check `if [ -d <name> ]`
guarding `tar czf <name>-backup-$TS.tar.gz <name>` executed after `cd`-ing
into the target's parent directory, with `TS` produced by
`date +%Y%m%d%H%M%S`; with `--skip-backup` the remote command is exactly
the same command with no backup step.  The timestamp is 14 digits with no
separators, and is sortable: chronologically later valid times render to
lexicographically larger stamps. -/
theorem backup_step_composition (base name tmp : String) (t1 t2 : DateTime)
    (h1 : validTime t1) (h2 : validTime t2) (hlt : tsVal t1 < tsVal t2) :
    remoteCmd base name tmp false =
      "set -euo pipefail; " ++ "mkdir -p " ++ shlexQuote base ++ "; " ++
        "cd " ++ shlexQuote base ++ "; " ++ backupCmd name ++
        "rm -rf " ++ shlexQuote name ++ "; " ++ "tar xzf " ++ shlexQuote tmp ++
        " -C " ++ shlexQuote base ++ "; " ++ "rm -f " ++ shlexQuote tmp ∧
    backupCmd name =
      "if [ -d " ++ shlexQuote name ++ " ]; then " ++
        "TS=$(date +%Y%m%d%H%M%S); " ++
        "tar czf " ++ shlexQuote name ++ "-backup-$TS.tar.gz " ++
        shlexQuote name ++ "; " ++ "fi;" ∧
    remoteCmd base name tmp true =
      "set -euo pipefail; " ++ "mkdir -p " ++ shlexQuote base ++ "; " ++
        "cd " ++ shlexQuote base ++ "; " ++
        "rm -rf " ++ shlexQuote name ++ "; " ++ "tar xzf " ++ shlexQuote tmp ++
        " -C " ++ shlexQuote base ++ "; " ++ "rm -f " ++ shlexQuote tmp ∧
    (dateYmdHMS t1).length = 14 ∧
    (∀ c ∈ (dateYmdHMS t1).data, c.isDigit = true) ∧
    dateYmdHMS t1 < dateYmdHMS t2 := by
  refine ⟨rfl, rfl, ?_, ?_, ?_, dateYmdHMS_sortable t1 t2 h1 h2 hlt⟩
  · simp only [remoteCmd]
    simp only [if_true]
    simp only [String.append_empty]
  · have hlen : (dateYmdHMS t1).length = ((tsDigits t1).map digitChar).length := rfl
    rw [hlen, List.length_map, tsDigits_length]
  · intro c hc
    have hdata : (dateYmdHMS t1).data = (tsDigits t1).map digitChar := rfl
    rw [hdata] at hc
    obtain ⟨d, hd, rfl⟩ := List.mem_map.mp hc
    have hdig : ∀ a, a < 10 → (digitChar a).isDigit = true := by decide
    exact hdig d (tsDigits_lt_ten t1 d hd)

theorem backup_step_composition_witness :
    remoteCmd "/data/apps" "dbus-serialbattery" "/tmp/dbus-serialbattery-deploy.tar.gz" false =
      "set -euo pipefail; " ++ "mkdir -p " ++ shlexQuote "/data/apps" ++ "; " ++
        "cd " ++ shlexQuote "/data/apps" ++ "; " ++ backupCmd "dbus-serialbattery" ++
        "rm -rf " ++ shlexQuote "dbus-serialbattery" ++ "; " ++
        "tar xzf " ++ shlexQuote "/tmp/dbus-serialbattery-deploy.tar.gz" ++
        " -C " ++ shlexQuote "/data/apps" ++ "; " ++
        "rm -f " ++ shlexQuote "/tmp/dbus-serialbattery-deploy.tar.gz" ∧
    backupCmd "dbus-serialbattery" =
      "if [ -d " ++ shlexQuote "dbus-serialbattery" ++ " ]; then " ++
        "TS=$(date +%Y%m%d%H%M%S); " ++
        "tar czf " ++ shlexQuote "dbus-serialbattery" ++ "-backup-$TS.tar.gz " ++
        shlexQuote "dbus-serialbattery" ++ "; " ++ "fi;" ∧
    remoteCmd "/data/apps" "dbus-serialbattery" "/tmp/dbus-serialbattery-deploy.tar.gz" true =
      "set -euo pipefail; " ++ "mkdir -p " ++ shlexQuote "/data/apps" ++ "; " ++
        "cd " ++ shlexQuote "/data/apps" ++ "; " ++
        "rm -rf " ++ shlexQuote "dbus-serialbattery" ++ "; " ++
        "tar xzf " ++ shlexQuote "/tmp/dbus-serialbattery-deploy.tar.gz" ++
        " -C " ++ shlexQuote "/data/apps" ++ "; " ++
        "rm -f " ++ shlexQuote "/tmp/dbus-serialbattery-deploy.tar.gz" ∧
    (dateYmdHMS ⟨2026, 10, 12, 9, 5, 3⟩).length = 14 ∧
    (∀ c ∈ (dateYmdHMS ⟨2026, 10, 12, 9, 5, 3⟩).data, c.isDigit = true) ∧
    dateYmdHMS ⟨2026, 10, 12, 9, 5, 3⟩ < dateYmdHMS ⟨2026, 10, 12, 9, 5, 4⟩ :=
  backup_step_composition "/data/apps" "dbus-serialbattery"
    "/tmp/dbus-serialbattery-deploy.tar.gz" ⟨2026, 10, 12, 9, 5, 3⟩
    ⟨2026, 10, 12, 9, 5, 4⟩ (by decide) (by decide) (by decide)

/-- Claim C8 counterexample: with backup not skipped but the remote
target directory absent (`remoteDirExists = false`), no backup is
performed, yet the completion message still reads `Previous install backed
up with timestamp suffix.` — the message depends only on the flag, not on
whether a backup actually happened. -/
theorem completion_message_counterexample :
    backupPerformed false false = false ∧
    (mainRun ⟨"root@10.1.87.45", "/data/apps/dbus-serialbattery",
        "dbus-serialbattery", false⟩
      ⟨true, true, true, true, true, true, false, "/tmp/t.tar.gz"⟩).printed.getLast? =
      some "[3/3] Done. Previous install backed up with timestamp suffix." ∧
    ("[3/3] Done. Previous install backed up with timestamp suffix." : String) ≠
      "[3/3] Done." := by
  refine ⟨rfl, ?_, by decide⟩
  decide

/-- Claim C8 (amended): the completion message distinguishes whether the
backup step was requested (`--skip-backup` absent) from skipped, not
whether a backup was actually performed; when the flag is absent the
backed-up message is printed even if the remote directory did not
previously exist. -/
theorem completion_message_amended (cfg : Config) (e : Env)
    (h1 : e.sshPresent = true) (h2 : e.scpPresent = true)
    (h3 : e.sourceIsDir = true) (h4 : e.tarWriteOk = true)
    (h5 : e.uploadOk = true) (h6 : e.remoteOk = true) :
    (mainRun cfg e).printed.getLast? = some (completionMessage cfg.skipBackup) ∧
    completionMessage true = "[3/3] Done." ∧
    completionMessage false =
      "[3/3] Done. Previous install backed up with timestamp suffix." ∧
    completionMessage false ≠ completionMessage true := by
  refine ⟨?_, rfl, rfl, by decide⟩
  simp [mainRun, deployRun, ensureToolsMsg, h1, h2, h3, h4, h5, h6]

theorem completion_message_amended_witness :
    (mainRun ⟨"root@10.1.87.45", "/data/apps/dbus-serialbattery",
        "dbus-serialbattery", true⟩
      ⟨true, true, true, true, true, true, false, "A"⟩).printed.getLast? =
      some (completionMessage true) ∧
    completionMessage true = "[3/3] Done." ∧
    completionMessage false =
      "[3/3] Done. Previous install backed up with timestamp suffix." ∧
    completionMessage false ≠ completionMessage true :=
  completion_message_amended _ _ rfl rfl rfl rfl rfl rfl

/-- Claim C9 counterexample: the `scp` destination is raw concatenation
`host:remote_tmp` with no quoting; for a remote path whose basename
contains a space the destination handed to `scp` contains an unquoted
space (the word fails to evaluate as a single literal), and it differs from
the shell-quoted form the claim asserts. -/
theorem scp_dest_unquoted_counterexample :
    (mainRun ⟨"root@h", "/data/apps/my app", "src", true⟩
      ⟨true, true, true, true, true, true, true, "ARCHIVE"⟩).scpCalls =
      [["scp", "ARCHIVE", "root@h:/tmp/my app-deploy.tar.gz"]] ∧
    shlexQuote (remoteTmpOf "/data/apps/my app") ≠
      remoteTmpOf "/data/apps/my app" ∧
    evalWord ("root@h:/tmp/my app-deploy.tar.gz").data QState.normal = none := by
  refine ⟨by decide, by decide, by decide⟩

/-- Claim C9 (amended): every path segment interpolated into the remote
shell command string is passed through `shlex.quote`, and a quoted word
always evaluates back to the original literal characters (so metacharacters
are not interpreted); the `scp` destination, by contrast, is unquoted raw
concatenation. -/
theorem quoting_amended :
    (∀ s : String, evalWord (shlexQuote s).data QState.normal = some s.data) ∧
    (∀ host tmp : String, scpDest host tmp = host ++ ":" ++ tmp) ∧
    (∀ base name tmp : String,
      remoteCmd base name tmp true =
        "set -euo pipefail; " ++ "mkdir -p " ++ shlexQuote base ++ "; " ++
        "cd " ++ shlexQuote base ++ "; " ++ "rm -rf " ++ shlexQuote name ++
        "; " ++ "tar xzf " ++ shlexQuote tmp ++ " -C " ++ shlexQuote base ++
        "; " ++ "rm -f " ++ shlexQuote tmp) := by
  refine ⟨shlexQuote_evalWord, fun _ _ => rfl, fun base name tmp => ?_⟩
  simp only [remoteCmd]
  simp only [if_true]
  simp only [String.append_empty]

end DeployVenus
